import Mathlib

/-!
Verification of the ZasDict dictionary application core
(collator, index builder, query engine, relation-integrity manager).

Strings are modelled as lists of characters (`Str`); Python's dynamically
typed entry ids (`None`, `int`, `str`) are modelled by the inductive
`PyVal`, with Python truthiness captured by `falsy`. Python dicts are
modelled as insertion-ordered association lists (matching CPython dict
semantics: `setdefault` appends new keys at the end, updating an existing
key keeps its position), and Python sets of ids as lists considered up to
membership. `Char.isUpper`/`Char.isLower`/`Char.toLower` model Python's
`str.isupper`/`islower`/`lower` (they agree on the ASCII and symbol
characters handled by the collator).
-/

/-- A Python string, as its list of characters. -/
abbrev Str := List Char

/-- `str.lower()`. -/
def strLower (s : Str) : Str := s.map Char.toLower

/-- A Python value usable as an entry id: `None`, an `int`, or a `str`. -/
inductive PyVal where
  | none : PyVal
  | int : Int → PyVal
  | str : Str → PyVal
deriving DecidableEq

/-- Python truthiness test (`not x`) for the values used as entry ids:
`None`, `0` and `""` are falsy. -/
def falsy : PyVal → Bool
  | .none => true
  | .int n => n == 0
  | .str s => s == []

/-! ## const.py -/

/-- `const.CUSTOM_ORDER = "eaoiuhkstcnrmpfgzdbv- "`. -/
def CUSTOM_ORDER : Str := "eaoiuhkstcnrmpfgzdbv- ".data

/-! ## func.py — TextProcessor -/

/-- Helper for `orderRank`: index of `c` in `l` starting from `i`, or 999. -/
def rankFrom : Str → Char → Int → Int
  | [], _, _ => 999
  | d :: rest, c, i => if d = c then i else rankFrom rest c (i + 1)

/-- `TextProcessor.ORDER_MAP.get(c, 999)`: position of `c` in
`CUSTOM_ORDER`, with fallback rank 999 for characters not listed. -/
def orderRank (c : Char) : Int := rankFrom CUSTOM_ORDER c 0

/-- Leading run of `c` removed (`re.sub(r"^-+", "", text)` for `c = '-'`). -/
def dropLeading (c : Char) (s : Str) : Str := s.dropWhile (· = c)

/-- `TextProcessor.preprocess`: strip leading and trailing hyphen runs,
remove full-width parentheses and apostrophes, and lowercase. -/
def preprocess (text : Str) : Str :=
  let t1 := dropLeading '-' text
  let t2 := (dropLeading '-' t1.reverse).reverse
  let t3 := t2.filter (fun c => !(c == '（' || c == '）' || c == '\''))
  strLower t3

/-- Rule 1 of `TextProcessor.compare_forms`: walk the zipped preprocessed
strings; at the first differing character pair return the difference of
their `ORDER_MAP` ranks (which is 0 when both are unmapped). `none` when
the zip is exhausted without a differing pair. -/
def cmpChars : Str → Str → Option Int
  | a :: as, b :: bs =>
    if a = b then cmpChars as bs else some (orderRank a - orderRank b)
  | _, _ => none

/-- Rule 2: length comparison of the preprocessed strings. -/
def rule2 (pa pb : Str) : Option Int :=
  if pa.length = pb.length then none
  else some ((pa.length : Int) - (pb.length : Int))

/-- `"'" in s`. -/
def hasChar (c : Char) (s : Str) : Bool := s.any (· == c)

/-- Rule 3: apostrophe presence (`-1 if "'" not in orig_a else 1`). -/
def rule3 (a b : Str) : Option Int :=
  if hasChar '\'' a = hasChar '\'' b then none
  else some (if hasChar '\'' a then 1 else -1)

/-- Rule 4: walk the zipped original strings; at the first differing pair
with one side uppercase and the other lowercase, the uppercase side sorts
first; other differing pairs are skipped. -/
def cmpCase : Str → Str → Option Int
  | a :: as, b :: bs =>
    if a = b then cmpCase as bs
    else if a.isUpper && b.isLower then some (-1)
    else if b.isUpper && a.isLower then some 1
    else cmpCase as bs
  | _, _ => none

/-- `any(ch in set("-()") for ch in s)`. -/
def hasSym (s : Str) : Bool := s.any (fun c => c == '-' || c == '(' || c == ')')

/-- Rule 5: marker-symbol presence (`-1 if not a_has_symbol else 1`). -/
def rule5 (a b : Str) : Option Int :=
  if hasSym a = hasSym b then none
  else some (if hasSym a then 1 else -1)

/-- `s.rfind(c)`: highest index of `c` in `s`, or `-1` when absent. -/
def rfindAux : Str → Char → Int → Int → Int
  | [], _, _, best => best
  | x :: rest, c, i, best => rfindAux rest c (i + 1) (if x == c then i else best)

/-- `s.rfind(c) if c in s else -1` (identical to a plain `rfind`). -/
def rfindIdx (s : Str) (c : Char) : Int := rfindAux s c 0 (-1)

/-- Rule 6: if either original contains a hyphen and the distances differ,
compare by distance from the last hyphen to the end of the string. -/
def rule6 (a b : Str) : Option Int :=
  if (hasChar '-' a || hasChar '-' b)
      && !(rfindIdx a '-' == rfindIdx b '-') then
    some (((a.length : Int) - rfindIdx a '-') - ((b.length : Int) - rfindIdx b '-'))
  else none

/-- `s.find(c) if c in s else 999`: first index of `c` in `s`, or 999. -/
def ffindAux : Str → Char → Int → Int
  | [], _, _ => 999
  | x :: rest, c, i => if x == c then i else ffindAux rest c (i + 1)

/-- First index of `c` in `s`, defaulting to 999 when absent. -/
def ffindIdx (s : Str) (c : Char) : Int := ffindAux s c 0

/-- Rule 7: if either original contains a full-width parenthesis, compare
by position of the opening one, then of the closing one. -/
def rule7 (a b : Str) : Option Int :=
  if hasChar '（' a || hasChar '（' b then
    if ffindIdx a '（' ≠ ffindIdx b '（' then some (ffindIdx a '（' - ffindIdx b '（')
    else if ffindIdx a '）' ≠ ffindIdx b '）' then some (ffindIdx a '）' - ffindIdx b '）')
    else none
  else none

/-- `TextProcessor.compare_forms`: the custom collator, applying rules
1–7 in order; the first rule that differentiates decides. -/
def compare_forms (a b : Str) : Int :=
  let pa := preprocess a
  let pb := preprocess b
  match cmpChars pa pb with
  | some d => d
  | none =>
    match rule2 pa pb with
    | some d => d
    | none =>
      match rule3 a b with
      | some d => d
      | none =>
        match cmpCase a b with
        | some d => d
        | none =>
          match rule5 a b with
          | some d => d
          | none =>
            match rule6 a b with
            | some d => d
            | none =>
              match rule7 a b with
              | some d => d
              | none => 0

/-! ## Data model

The entry records read and written by the application, mirroring the
fields that `func.py`, `editor.py` and `main.py` access on the JSON
document (`word_entry["entry"]["id"]`, `["entry"]["form"]`,
`["translations"]`, `["tags"]`, `["contents"]`, `["variations"]`,
`["relations"]`). A missing list field is modelled as the empty list,
matching the `.get(key, [])` accesses in the source. -/

/-- The `{"id": ..., "form": ...}` object of an entry or of a relation
target. -/
structure EntryHead where
  id : PyVal
  form : Str
deriving DecidableEq

/-- A relation record: `{"title": kind, "entry": {"id": ..., "form": ...}}`. -/
structure Relation where
  title : Str
  entry : EntryHead
deriving DecidableEq

/-- A translation record: `{"title": part-of-speech, "forms": [...]}`. -/
structure Translation where
  title : Str
  forms : List Str
deriving DecidableEq

/-- A content record: `{"title": section, "text": ...}`. -/
structure Content where
  title : Str
  text : Str
deriving DecidableEq

/-- A variation record: `{"title": ..., "form": ...}`. -/
structure Variation where
  title : Str
  form : Str
deriving DecidableEq

/-- One element of the dictionary's `"words"` collection. -/
structure WordEntry where
  entry : EntryHead
  translations : List Translation
  tags : List Str
  contents : List Content
  variations : List Variation
  relations : List Relation
deriving DecidableEq

/-- The SearchIndex: a Python dict from lowercase token to the set of
entry ids registered under it, as an insertion-ordered association list
(the id set is a list considered up to membership). -/
abbrev Index := List (Str × List PyVal)

/-- The IdMap: a Python dict from entry id to the full entry record. -/
abbrev IdMap := List (PyVal × WordEntry)

/-! ## func.py — DictionaryLoader.build_search_index -/

/-- `index.setdefault(key, set()).add(wid)`: add `wid` to the id set of
`key`, appending a new key at the end of the dict when absent and never
duplicating an id already in the set. -/
def indexAdd (ix : Index) (key : Str) (wid : PyVal) : Index :=
  match ix with
  | [] => [(key, [wid])]
  | (k, s) :: rest =>
    if k = key then (k, if wid ∈ s then s else s ++ [wid]) :: rest
    else (k, s) :: indexAdd rest key wid

/-- Dict lookup in the SearchIndex (absent key: empty set). -/
def indexLookup : Index → Str → List PyVal
  | [], _ => []
  | (k, s) :: rest, key => if k = key then s else indexLookup rest key

/-- `id_map[wid] = w`: update an existing key in place, else append. -/
def idMapInsert (m : IdMap) (wid : PyVal) (w : WordEntry) : IdMap :=
  match m with
  | [] => [(wid, w)]
  | (k, v) :: rest =>
    if k = wid then (wid, w) :: rest else (k, v) :: idMapInsert rest wid w

/-- Dict lookup in the IdMap. -/
def idMapLookup : IdMap → PyVal → Option WordEntry
  | [], _ => none
  | (k, v) :: rest, wid => if k = wid then some v else idMapLookup rest wid

/-- `text.split()`: split on whitespace runs, dropping empty pieces. -/
def splitWs : Str → Str
    → List Str  -- accumulator: current word, reversed
  | [], acc => if acc = [] then [] else [acc.reverse]
  | c :: rest, acc =>
    if c.isWhitespace then
      if acc = [] then splitWs rest [] else acc.reverse :: splitWs rest []
    else splitWs rest (c :: acc)

/-- `text.split()` on a string. -/
def pySplit (s : Str) : List Str := splitWs s []

/-- The guard `if not word_id or not form: continue` in
`build_search_index`: an entry is indexed iff its id and form are truthy. -/
def validEntry (w : WordEntry) : Bool :=
  !(falsy w.entry.id) && !(w.entry.form == [])

/-- The list of lowercase keys registered for one valid entry, in the
order `build_search_index` collects them: headword, translation forms
(truthy only), variation forms (truthy only), related-entry cached forms
(truthy only), tags, whitespace-split content words. -/
def entryKeys (w : WordEntry) : List Str :=
  strLower w.entry.form ::
    ((w.translations.flatMap fun t => (t.forms.filter (fun f => !(f == []))).map strLower)
      ++ (w.variations.filterMap fun v =>
            if v.form == [] then none else some (strLower v.form))
      ++ (w.relations.filterMap fun r =>
            if r.entry.form == [] then none else some (strLower r.entry.form))
      ++ w.tags.map strLower
      ++ (w.contents.flatMap fun c =>
            if c.text == [] then [] else (pySplit c.text).map strLower))

/-- Register every key of `keys` for id `wid` in the index. -/
def addKeys (ix : Index) (keys : List Str) (wid : PyVal) : Index :=
  keys.foldl (fun a k => indexAdd a k wid) ix

/-- The loop of `DictionaryLoader.build_search_index` over the words,
carrying the index and id map built so far. -/
def buildAux : List WordEntry → Index → IdMap → Index × IdMap
  | [], ix, im => (ix, im)
  | w :: rest, ix, im =>
    if validEntry w then
      buildAux rest (addKeys ix (entryKeys w) w.entry.id) (idMapInsert im w.entry.id w)
    else buildAux rest ix im

/-- `DictionaryLoader.build_search_index`: build the search index and the
id map from the dictionary's words in one pass. -/
def build_search_index (words : List WordEntry) : Index × IdMap :=
  buildAux words [] []

/-! ## func.py — SearchWorker -/

/-- `needle` is a prefix of `hay` (`hay.startswith(needle)`). -/
def isPre : Str → Str → Bool
  | [], _ => true
  | _ :: _, [] => false
  | a :: as, b :: bs => if a = b then isPre as bs else false

/-- `hay.endswith(needle)`. -/
def isSuf (needle hay : Str) : Bool := isPre needle.reverse hay.reverse

/-- Python substring test `needle in hay`. -/
def hasSub (hay needle : Str) : Bool :=
  if isPre needle hay then true
  else match hay with
    | [] => false
    | _ :: t => hasSub t needle

/-- `" ".join(forms)`. -/
def joinSpace : List Str → Str
  | [] => []
  | [x] => x
  | x :: y :: rest => x ++ ' ' :: joinSpace (y :: rest)

/-- `SearchWorker._match`: matching of a candidate form list against the
keyword, per search mode (部分 = conjunctive substring over the
space-joined forms, 前方 = some form starts with the keyword, 後方 = some
form ends with it, 完全 = the keyword is one of the forms). -/
def matchMode (forms : List Str) (keyword : Str) (mode : Str) : Bool :=
  if mode = "部分".data then
    (pySplit keyword).all fun k => hasSub (joinSpace forms) k
  else if mode = "前方".data then forms.any fun f => isPre keyword f
  else if mode = "後方".data then forms.any fun f => isSuf keyword f
  else if mode = "完全".data then forms.any fun f => f == keyword
  else false

/-- The candidate form list `SearchWorker._search_headword_translation`
builds for one entry: the lowercased headword plus every truthy
translation form, lowercased. -/
def headwordForms (w : WordEntry) : List Str :=
  strLower w.entry.form ::
    (w.translations.flatMap fun t => (t.forms.filter (fun f => !(f == []))).map strLower)

/-- `SearchWorker._search_headword_translation`: the set of ids of the
id-map entries whose candidate form list matches the keyword. -/
def searchHeadwordTranslation (im : IdMap) (keyword : Str) (mode : Str) : List PyVal :=
  im.filterMap fun p =>
    if matchMode (headwordForms p.2) keyword mode then some p.2.entry.id else none

/-- `SearchWorker._search_fulltext`: the union of the id sets of the
index keys that match the keyword. -/
def searchFulltext (ix : Index) (keyword : Str) (mode : Str) : List PyVal :=
  ix.flatMap fun p => if matchMode [p.1] keyword mode then p.2 else []

/-- The result-id computation of `SearchWorker.run_search`: lowercase the
query text, then dispatch on the scope (見出し語・訳語 scans the id map
directly, anything else scans the index keys). Resolution through the id
map and collator sorting of `run_search` happen downstream of this set. -/
def run_search_ids (ix : Index) (im : IdMap) (mode scope text : Str) : List PyVal :=
  let keyword := strLower text
  if scope = "見出し語・訳語".data then searchHeadwordTranslation im keyword mode
  else searchFulltext ix keyword mode

/-! ## editor.py — EntryEditorDialog -/

/-- `reciprocal_map.get(relation_type, "関連")` in
`apply_reciprocal_relations` / `get_reciprocal_relations`: the fixed
reciprocal-kind table, defaulting to 関連 for unknown kinds. -/
def reciprocal_type (t : Str) : Str :=
  if t = "類義語".data then "類義語".data
  else if t = "対義語".data then "対義語".data
  else if t = "上位語".data then "下位語".data
  else if t = "下位語".data then "上位語".data
  else if t = "関連".data then "関連".data
  else if t = "参照".data then "参照".data
  else if t = "省略".data then "省略".data
  else if t = "同意".data then "同意".data
  else "関連".data

/-- First entry of the words list with the given id (the
`for entry in words: if id == target: break` search). -/
def getFirstById : List WordEntry → PyVal → Option WordEntry
  | [], _ => none
  | w :: rest, tid => if w.entry.id = tid then some w else getFirstById rest tid

/-- Replace the first entry with the given id by its image under `f`
(in-place mutation of the found object); no match leaves the list as is. -/
def updateFirstById : List WordEntry → PyVal → (WordEntry → WordEntry) → List WordEntry
  | [], _, _ => []
  | w :: rest, tid, f =>
    if w.entry.id = tid then f w :: rest else w :: updateFirstById rest tid f

/-- The duplicate check plus append of `apply_reciprocal_relations`: add
the back-relation `{title: rtype, entry: {id: curId, form: curForm}}` to
the target's relation list unless a relation with the same (kind,
target-id) pair is already present. -/
def addRecip (e : WordEntry) (rtype : Str) (curId : PyVal) (curForm : Str) : WordEntry :=
  if e.relations.any (fun r => decide (r.entry.id = curId) && decide (r.title = rtype)) then e
  else { e with relations := e.relations ++ [⟨rtype, ⟨curId, curForm⟩⟩] }

/-- `EntryEditorDialog.apply_reciprocal_relations`: for each declared
relation (skipping those whose target id is falsy, for which the widget
returns `None`), find the first entry with the target id and append the
reciprocal back-relation to it under duplicate suppression. -/
def apply_reciprocal_relations (words : List WordEntry) (curId : PyVal)
    (curForm : Str) (decls : List Relation) : List WordEntry :=
  decls.foldl
    (fun ws d =>
      if falsy d.entry.id then ws
      else updateFirstById ws d.entry.id
        fun e => addRecip e (reciprocal_type d.title) curId curForm)
    words

/-- `EntryEditorDialog.get_reciprocal_relations`: the list of
(target id, back-relation) pairs that should be added, skipping declared
relations with a falsy target id. -/
def get_reciprocal_relations (curId : PyVal) (curForm : Str)
    (decls : List Relation) : List (PyVal × Relation) :=
  decls.filterMap fun d =>
    if falsy d.entry.id then none
    else some (d.entry.id, ⟨reciprocal_type d.title, ⟨curId, curForm⟩⟩)

/-- The integer entry ids collected by `_generate_unique_id`
(`entry_id is not None`); ids are integers per the function's contract
(一意なIDを生成（integer型）). -/
def collectIds (words : List WordEntry) : List Int :=
  words.filterMap fun w =>
    match w.entry.id with
    | .int n => some n
    | _ => none

/-- Maximum of a list of integers, `none` on the empty list. -/
def listMaxI : List Int → Option Int
  | [] => none
  | x :: rest =>
    match listMaxI rest with
    | none => some x
    | some m => some (max x m)

/-- `EntryEditorDialog._generate_unique_id`: max existing id + 1, or the
sentinel 2147483647 when no entry ids exist. -/
def generate_unique_id (words : List WordEntry) : Int :=
  match listMaxI (collectIds words) with
  | some m => m + 1
  | none => 2147483647

/-! ## main.py — DictionaryApp -/

/-- The document rewrite of `DictionaryApp._delete_entry`: drop every
entry whose id equals the deleted id, then drop from every remaining
entry's relation list every relation whose target id equals it. -/
def delete_entry (words : List WordEntry) (d : PyVal) : List WordEntry :=
  (words.filter fun e => !decide (e.entry.id = d)).map fun w =>
    { w with relations := w.relations.filter fun rel => !decide (rel.entry.id = d) }

/-- The search-related state of `DictionaryApp`: the job counter, the
most recently submitted job id, and the displayed result state. -/
structure AppState where
  job_counter : Int
  latest_job_id : Int
  result_list : List Str
  result_entries : List WordEntry
deriving DecidableEq

/-- `DictionaryApp.update_results`: empty text or an empty index clears
the display; otherwise increment the job counter, record it as the
latest submitted job id and dispatch that job id to the worker
(returned as the second component). -/
def update_results (s : AppState) (text : Str) (indexEmpty : Bool) :
    AppState × Option Int :=
  if text = [] || indexEmpty then ({ s with result_list := [] }, none)
  else
    let j := s.job_counter + 1
    ({ s with job_counter := j, latest_job_id := j }, some j)

/-- The display strings built by `DictionaryApp.on_search_finished`:
each result's headword, numbered `form (k)` for the k-th homonym, the
count being taken over the entries appended so far. -/
def buildDisplay : List WordEntry → List WordEntry → List Str
  | [], _ => []
  | e :: rest, prev =>
    let form := e.entry.form
    let count := (prev.filter fun p => decide (p.entry.form = form)).length
    let disp :=
      if count > 0 then form ++ ' ' :: '(' :: (Nat.toDigits 10 (count + 1) ++ [')'])
      else form
    disp :: buildDisplay rest (prev ++ [e])

/-- `DictionaryApp.on_search_finished`: a completion whose job id is not
the most recently submitted one is discarded, leaving the state
untouched; otherwise the result list and entries are rebuilt from the
delivered results (the loop appends every result entry in order). -/
def on_search_finished (s : AppState) (job_id : Int)
    (results : List WordEntry) : AppState :=
  if job_id ≠ s.latest_job_id then s
  else { s with result_list := buildDisplay results [], result_entries := results }

/-- An entry with its id removed (`id` key set to `None`), for stating
that a falsy id behaves exactly as a missing one. -/
def setIdNone (w : WordEntry) : WordEntry :=
  { w with entry := { w.entry with id := PyVal.none } }

/-! # Theorems

## Collator (claims C1, C6) -/

theorem cmpChars_self (l : Str) : cmpChars l l = none := by
  induction l with
  | nil => rfl
  | cons x xs ih => simp [cmpChars, ih]

theorem cmpChars_swap (a b : Str) :
    cmpChars b a = (cmpChars a b).map (fun d => -d) := by
  induction a generalizing b with
  | nil => cases b <;> simp [cmpChars]
  | cons x xs ih =>
    cases b with
    | nil => simp [cmpChars]
    | cons y ys =>
      by_cases h : x = y
      · subst h; simp [cmpChars, ih]
      · have h' : ¬(y = x) := fun e => h e.symm
        simp [cmpChars, h, h']

theorem isUpper_isLower_absurd (c : Char) :
    ¬(c.isUpper = true ∧ c.isLower = true) := by
  rintro ⟨h1, h2⟩
  simp only [Char.isUpper, Char.isLower, Bool.and_eq_true, decide_eq_true_eq] at h1 h2
  have hb : c.val.toNat ≤ (90 : UInt32).toNat := h1.2
  have hc : (97 : UInt32).toNat ≤ c.val.toNat := h2.1
  exact absurd (Nat.le_trans hc hb) (by decide)

theorem cmpCase_self (l : Str) : cmpCase l l = none := by
  induction l with
  | nil => rfl
  | cons x xs ih => simp [cmpCase, ih]

theorem cmpCase_swap (a b : Str) :
    cmpCase b a = (cmpCase a b).map (fun d => -d) := by
  induction a generalizing b with
  | nil => cases b <;> simp [cmpCase]
  | cons x xs ih =>
    cases b with
    | nil => simp [cmpCase]
    | cons y ys =>
      by_cases h : x = y
      · subst h; simp [cmpCase, ih]
      · have h' : ¬(y = x) := fun e => h e.symm
        by_cases hC1 : (x.isUpper && y.isLower) = true
        · have hC2 : ¬((y.isUpper && x.isLower) = true) := by
            intro hC2
            rw [Bool.and_eq_true] at hC1 hC2
            exact isUpper_isLower_absurd x ⟨hC1.1, hC2.2⟩
          simp [cmpCase, h, h', hC1, hC2]
        · by_cases hC2 : (y.isUpper && x.isLower) = true
          · simp [cmpCase, h, h', hC1, hC2]
          · simp [cmpCase, h, h', hC1, hC2, ih]

theorem rule2_swap (pa pb : Str) :
    rule2 pb pa = (rule2 pa pb).map (fun d => -d) := by
  by_cases h : pa.length = pb.length
  · simp [rule2, h]
  · have h' : ¬(pb.length = pa.length) := fun e => h e.symm
    simp [rule2, h, h']

theorem rule3_swap (a b : Str) :
    rule3 b a = (rule3 a b).map (fun d => -d) := by
  unfold rule3
  cases hA : hasChar '\'' a <;> cases hB : hasChar '\'' b <;> simp_all

theorem rule5_swap (a b : Str) :
    rule5 b a = (rule5 a b).map (fun d => -d) := by
  unfold rule5
  cases hA : hasSym a <;> cases hB : hasSym b <;> simp_all

theorem rule6_swap (a b : Str) :
    rule6 b a = (rule6 a b).map (fun d => -d) := by
  unfold rule6
  by_cases h : rfindIdx a '-' = rfindIdx b '-'
  · simp [h]
  · have h' : ¬(rfindIdx b '-' = rfindIdx a '-') := fun e => h e.symm
    by_cases hp : (hasChar '-' a || hasChar '-' b) = true
    · have hp' : (hasChar '-' b || hasChar '-' a) = true := by
        rw [Bool.or_comm]; exact hp
      simp [h, h', hp, hp']
    · have hp' : ¬((hasChar '-' b || hasChar '-' a) = true) := by
        rw [Bool.or_comm]; exact hp
      simp [hp, hp']

theorem rule7_swap (a b : Str) :
    rule7 b a = (rule7 a b).map (fun d => -d) := by
  unfold rule7
  by_cases hp : (hasChar '（' a || hasChar '（' b) = true
  · have hp' : (hasChar '（' b || hasChar '（' a) = true := by
      rw [Bool.or_comm]; exact hp
    by_cases h1 : ffindIdx a '（' = ffindIdx b '（'
    · by_cases h2 : ffindIdx a '）' = ffindIdx b '）'
      · simp [hp, hp', h1, h2]
      · have h2' : ¬(ffindIdx b '）' = ffindIdx a '）') := fun e => h2 e.symm
        simp [hp, hp', h1, h2, h2']
    · have h1' : ¬(ffindIdx b '（' = ffindIdx a '（') := fun e => h1 e.symm
      simp [hp, hp', h1, h1']
  · have hp' : ¬((hasChar '（' b || hasChar '（' a) = true) := by
      rw [Bool.or_comm]; exact hp
    simp [hp, hp']

theorem compare_forms_self (a : Str) : compare_forms a a = 0 := by
  simp [compare_forms, cmpChars_self, cmpCase_self, rule2, rule3, rule5, rule6, rule7]

theorem compare_forms_swap (a b : Str) :
    compare_forms b a = - compare_forms a b := by
  simp only [compare_forms]
  rw [cmpChars_swap (preprocess a) (preprocess b),
    rule2_swap (preprocess a) (preprocess b), rule3_swap a b, cmpCase_swap a b,
    rule5_swap a b, rule6_swap a b, rule7_swap a b]
  cases cmpChars (preprocess a) (preprocess b) <;> simp
  cases rule2 (preprocess a) (preprocess b) <;> simp
  cases rule3 a b <;> simp
  cases cmpCase a b <;> simp
  cases rule5 a b <;> simp
  cases rule6 a b <;> simp
  cases rule7 a b <;> simp

/-- C1 (amended): `compare_forms` is irreflexive (`compare(a,a) = equal`)
and antisymmetric (`compare(b,a)` is the exact negation of
`compare(a,b)`, so `compare(a,b) = less` iff `compare(b,a) = greater`). -/
theorem collator_irrefl_antisymm (a b : Str) :
    compare_forms a a = 0
    ∧ compare_forms b a = - compare_forms a b
    ∧ (compare_forms a b < 0 ↔ compare_forms b a > 0) := by
  refine ⟨compare_forms_self a, compare_forms_swap a b, ?_⟩
  rw [compare_forms_swap a b]
  omega

/-- C1 (counterexample): `compare_forms` is not a strict weak ordering.
Rule 1 returns the rank difference at the first mismatching character,
which is 0 when both characters are outside `CUSTOM_ORDER`, so distinct
strings tie there and the later rules never run. Equivalence is not
transitive: "xa" ~ "yb" and "yb" ~ "xb" but "xa" < "xb". Strict
comparison is not transitive either: "a'B" < "aB'-" (rule 5) and
"aB'-" < "ab'" (rule 4), yet "a'B" ~ "ab'" (the apostrophes misalign the
case scan of rule 4 and every later rule ties). -/
theorem collator_not_transitive :
    (compare_forms "xa".data "yb".data = 0
      ∧ compare_forms "yb".data "xb".data = 0
      ∧ compare_forms "xa".data "xb".data < 0)
    ∧ (compare_forms "a'B".data "aB'-".data < 0
      ∧ compare_forms "aB'-".data "ab'".data < 0
      ∧ compare_forms "a'B".data "ab'".data = 0) := by
  decide

/-- C6 (counterexample): the normalized forms of "re-do" and "redo" do
not tie through rules 1–4: `preprocess` strips only leading/trailing
hyphen runs, so "re-do" normalizes to itself (length 5, not 4), and
rule 1 already decides the comparison at the mismatch '-' vs 'd'
(ranks 20 vs 17); rule 5 is never consulted. -/
theorem collator_redo_counterexample :
    preprocess "re-do".data = "re-do".data
    ∧ (preprocess "re-do".data).length ≠ (preprocess "redo".data).length
    ∧ cmpChars (preprocess "re-do".data) (preprocess "redo".data) = some 3 := by
  decide

/-- C6 (amended): the collator does order "redo" before "re-do"
(`compare("re-do", "redo") = greater`), but the decision is made by
rule 1: the interior hyphen survives normalization and '-' (rank 20)
sorts after 'd' (rank 17) in the custom order table. -/
theorem collator_redo_order :
    compare_forms "re-do".data "redo".data > 0
    ∧ compare_forms "re-do".data "redo".data
        = orderRank '-' - orderRank 'd' := by
  decide


/-! ## Deletion cascade (claim C2) -/

/-- C2: after `_delete_entry` rewrites the words collection for id `d`,
no remaining entry has id `d` and no remaining entry's relation list
contains a relation whose target id equals `d`. -/
theorem delete_entry_no_dangling (words : List WordEntry) (d : PyVal) :
    (∀ w ∈ delete_entry words d, ¬ w.entry.id = d)
    ∧ (∀ w ∈ delete_entry words d, ∀ r ∈ w.relations, ¬ r.entry.id = d) := by
  constructor
  · intro w hw
    simp only [delete_entry, List.mem_map, List.mem_filter] at hw
    obtain ⟨v, ⟨hv, hvne⟩, rfl⟩ := hw
    simpa using hvne
  · intro w hw r hr
    simp only [delete_entry, List.mem_map, List.mem_filter] at hw
    obtain ⟨v, ⟨hv, hvne⟩, rfl⟩ := hw
    simp only [List.mem_filter] at hr
    simpa using hr.2

/-- C2 witness: deleting entry 1 from a two-entry dictionary in which
entry 2 holds a relation targeting entry 1. -/
theorem delete_entry_no_dangling_witness :
    (⟨⟨PyVal.int 2, "b".data⟩, [], [], [], [],
        [⟨"関連".data, ⟨PyVal.int 1, "a".data⟩⟩]⟩ : WordEntry) ∈
      delete_entry
        [⟨⟨PyVal.int 1, "a".data⟩, [], [], [], [],
            [⟨"関連".data, ⟨PyVal.int 2, "b".data⟩⟩]⟩,
          ⟨⟨PyVal.int 2, "b".data⟩, [], [], [], [],
            [⟨"関連".data, ⟨PyVal.int 1, "a".data⟩⟩]⟩]
        (PyVal.int 1)
    → False := by
  intro hmem
  exact
    (delete_entry_no_dangling
        [⟨⟨PyVal.int 1, "a".data⟩, [], [], [], [],
            [⟨"関連".data, ⟨PyVal.int 2, "b".data⟩⟩]⟩,
          ⟨⟨PyVal.int 2, "b".data⟩, [], [], [], [],
            [⟨"関連".data, ⟨PyVal.int 1, "a".data⟩⟩]⟩]
        (PyVal.int 1)).2 _ hmem
      ⟨"関連".data, ⟨PyVal.int 1, "a".data⟩⟩ (by decide) (by decide)

/-! ## Id generation (claim C7) -/

theorem le_listMaxI (l : List Int) (x : Int) (hx : x ∈ l) :
    ∃ m, listMaxI l = some m ∧ x ≤ m := by
  induction l with
  | nil => cases hx
  | cons y ys ih =>
    rcases List.mem_cons.1 hx with rfl | hmem
    · cases h : listMaxI ys with
      | none => exact ⟨x, by simp [listMaxI, h], le_refl x⟩
      | some m => exact ⟨max x m, by simp [listMaxI, h], le_max_left x m⟩
    · obtain ⟨m, hm, hle⟩ := ih hmem
      exact ⟨max y m, by simp [listMaxI, hm], le_trans hle (le_max_right y m)⟩

/-- C7: `_generate_unique_id` returns max existing id + 1 when at least
one (integer) entry id exists, returns the sentinel 2147483647 instead
of failing when none exists, and in either case the returned id collides
with no existing entry id. The hypothesis restricts ids to `None` or
integers, the only id values on which the source's `max(...) + 1` is
defined (一意なIDを生成（integer型）). -/
theorem generate_unique_id_spec (words : List WordEntry)
    (hids : ∀ w ∈ words, w.entry.id = PyVal.none ∨ ∃ n, w.entry.id = PyVal.int n) :
    (collectIds words = [] → generate_unique_id words = 2147483647)
    ∧ (∀ m, listMaxI (collectIds words) = some m → generate_unique_id words = m + 1)
    ∧ (∀ w ∈ words, w.entry.id ≠ PyVal.int (generate_unique_id words)) := by
  refine ⟨fun h => by simp [generate_unique_id, h, listMaxI],
    fun m hm => by simp [generate_unique_id, hm], ?_⟩
  intro w hw heq
  have hmem : generate_unique_id words ∈ collectIds words := by
    refine List.mem_filterMap.2 ⟨w, hw, ?_⟩
    rw [heq]
  obtain ⟨m, hm, hle⟩ := le_listMaxI _ _ hmem
  have : generate_unique_id words = m + 1 := by simp [generate_unique_id, hm]
  omega

/-- C7 witness: a dictionary with ids 5 and `None` generates id 6; an
id-less dictionary generates the sentinel. -/
theorem generate_unique_id_witness :
    generate_unique_id
        [⟨⟨PyVal.int 5, "a".data⟩, [], [], [], [], []⟩,
          ⟨⟨PyVal.none, "b".data⟩, [], [], [], [], []⟩] = 5 + 1
    ∧ generate_unique_id [⟨⟨PyVal.none, "b".data⟩, [], [], [], [], []⟩]
        = 2147483647
    ∧ (⟨⟨PyVal.int 5, "a".data⟩, [], [], [], [], []⟩ : WordEntry).entry.id
        ≠ PyVal.int (generate_unique_id
            [⟨⟨PyVal.int 5, "a".data⟩, [], [], [], [], []⟩,
              ⟨⟨PyVal.none, "b".data⟩, [], [], [], [], []⟩]) := by
  refine ⟨?_, ?_, ?_⟩
  · exact (generate_unique_id_spec _ (by simp)).2.1 5 (by decide)
  · exact (generate_unique_id_spec _ (by simp)).1 (by decide)
  · exact (generate_unique_id_spec _ (by simp)).2.2 _ (by decide)

/-! ## Stale query results (claim C8) -/

/-- C8: a completion whose job id differs from the most recently
submitted job id is discarded by `on_search_finished`, leaving the
displayed result state (indeed the whole caller state) unchanged; a
completion carrying the latest submitted id updates the result list.
Submitting two jobs in sequence and then delivering the first job's
completion leaves the state unchanged. -/
theorem on_search_finished_stale (s : AppState) (jid : Int) (res : List WordEntry) :
    (jid ≠ s.latest_job_id → on_search_finished s jid res = s)
    ∧ (jid = s.latest_job_id →
        (on_search_finished s jid res).result_entries = res
        ∧ (on_search_finished s jid res).result_list = buildDisplay res [])
    ∧ (∀ t1 t2 : Str, ¬ t1 = [] → ¬ t2 = [] →
        (update_results (update_results s t1 false).1 t2 false).1.latest_job_id
            = s.job_counter + 2
        ∧ on_search_finished (update_results (update_results s t1 false).1 t2 false).1
            (s.job_counter + 1) res
          = (update_results (update_results s t1 false).1 t2 false).1) := by
  refine ⟨fun h => by simp [on_search_finished, h], fun h => by simp [on_search_finished, h], ?_⟩
  intro t1 t2 h1 h2
  have hne : ¬(s.job_counter + 1 = s.job_counter + 1 + 1) := by omega
  constructor
  · simp [update_results, h1, h2]
    omega
  · simp [update_results, h1, h2, on_search_finished, hne]

/-- C8 witness: with latest submitted job id 2, the completion of job 1
is discarded and the completion of job 2 updates the result entries. -/
theorem on_search_finished_stale_witness :
    on_search_finished ⟨2, 2, [], []⟩ 1 [⟨⟨PyVal.int 1, "a".data⟩, [], [], [], [], []⟩]
        = ⟨2, 2, [], []⟩
    ∧ (on_search_finished ⟨2, 2, [], []⟩ 2
          [⟨⟨PyVal.int 1, "a".data⟩, [], [], [], [], []⟩]).result_entries
        = [⟨⟨PyVal.int 1, "a".data⟩, [], [], [], [], []⟩] := by
  exact ⟨(on_search_finished_stale ⟨2, 2, [], []⟩ 1 _).1 (by decide),
    ((on_search_finished_stale ⟨2, 2, [], []⟩ 2 _).2.1 rfl).1⟩

/-! ## Reciprocal kinds (claims C10, C5) -/

/-- C10: a relation kind outside the eight-entry reciprocal table maps
to the default back-kind 関連: `get_reciprocal_relations` emits a
関連-titled back-relation for it, and `apply_reciprocal_relations`
appends a 関連-titled back-relation to the target (no error, no echo of
the original kind). -/
theorem reciprocal_default_kind (t : Str)
    (h : t ∉ ["類義語".data, "対義語".data, "上位語".data, "下位語".data,
      "関連".data, "参照".data, "省略".data, "同意".data])
    (tid : PyVal) (tform : Str) (hid : falsy tid = false)
    (curId : PyVal) (curForm : Str) (words : List WordEntry) :
    reciprocal_type t = "関連".data
    ∧ get_reciprocal_relations curId curForm [⟨t, ⟨tid, tform⟩⟩]
        = [(tid, ⟨"関連".data, ⟨curId, curForm⟩⟩)]
    ∧ apply_reciprocal_relations words curId curForm [⟨t, ⟨tid, tform⟩⟩]
        = updateFirstById words tid (fun e => addRecip e "関連".data curId curForm) := by
  simp only [List.mem_cons, List.not_mem_nil, or_false, not_or] at h
  obtain ⟨h1, h2, h3, h4, h5, h6, h7, h8⟩ := h
  have ht : reciprocal_type t = "関連".data := by
    simp [reciprocal_type, h1, h2, h3, h4, h5, h6, h7, h8]
  refine ⟨ht, ?_, ?_⟩
  · simp [get_reciprocal_relations, hid, ht]
  · simp [apply_reciprocal_relations, hid, ht]

/-- C10 witness: the unknown kind "同義" (not in the table) produces a
関連 back-relation. -/
theorem reciprocal_default_kind_witness :
    reciprocal_type "同義".data = "関連".data
    ∧ get_reciprocal_relations (PyVal.int 1) "a".data
        [⟨"同義".data, ⟨PyVal.int 2, "b".data⟩⟩]
      = [(PyVal.int 2, ⟨"関連".data, ⟨PyVal.int 1, "a".data⟩⟩)] := by
  have h := reciprocal_default_kind "同義".data (by decide) (PyVal.int 2) "b".data
    (by decide) (PyVal.int 1) "a".data []
  exact ⟨h.1, h.2.1⟩

/-! ## Index builder (claims C3, C9) -/

theorem idMapLookup_insert (m : IdMap) (q wid : PyVal) (w : WordEntry) :
    idMapLookup (idMapInsert m wid w) q
      = if wid = q then some w else idMapLookup m q := by
  induction m with
  | nil => by_cases h : wid = q <;> simp [idMapInsert, idMapLookup, h]
  | cons p rest ih =>
    obtain ⟨k, v⟩ := p
    by_cases hk : k = wid
    · subst hk
      by_cases hq : k = q <;> simp [idMapInsert, idMapLookup, hq]
    · by_cases hq : k = q
      · subst hq
        have hne : ¬(wid = k) := fun e => hk e.symm
        simp [idMapInsert, idMapLookup, hk, hne]
      · simp [idMapInsert, idMapLookup, hk, hq, ih]

theorem mem_indexLookup_indexAdd (ix : Index) (key q : Str) (wid x : PyVal) :
    x ∈ indexLookup (indexAdd ix key wid) q
      ↔ (x ∈ indexLookup ix q ∨ (q = key ∧ x = wid)) := by
  induction ix with
  | nil =>
    by_cases h : key = q
    · subst h; simp [indexAdd, indexLookup]
    · have h' : ¬(q = key) := fun e => h e.symm
      simp [indexAdd, indexLookup, h, h']
  | cons p rest ih =>
    obtain ⟨k, s⟩ := p
    by_cases hk : k = key
    · subst hk
      by_cases hq : k = q
      · subst hq
        by_cases hws : wid ∈ s
        · simp [indexAdd, indexLookup, hws]
          intro hx
          subst hx
          exact hws
        · simp [indexAdd, indexLookup, hws]
      · have hq' : ¬(q = k) := fun e => hq e.symm
        simp [indexAdd, indexLookup, hq, hq']
    · by_cases hq : k = q
      · subst hq
        simp [indexAdd, indexLookup, hk]
      · simp [indexAdd, indexLookup, hk, hq, ih]

theorem mem_indexLookup_addKeys (keys : List Str) (ix : Index) (wid x : PyVal) (q : Str) :
    x ∈ indexLookup (addKeys ix keys wid) q
      ↔ (x ∈ indexLookup ix q ∨ (q ∈ keys ∧ x = wid)) := by
  induction keys generalizing ix with
  | nil => simp [addKeys]
  | cons k ks ih =>
    have : addKeys ix (k :: ks) wid = addKeys (indexAdd ix k wid) ks wid := rfl
    rw [this, ih, mem_indexLookup_indexAdd]
    simp only [List.mem_cons]
    tauto

theorem mem_indexLookup_buildAux (rest : List WordEntry) (ix : Index) (im : IdMap)
    (q : Str) (x : PyVal) :
    x ∈ indexLookup (buildAux rest ix im).1 q
      ↔ (x ∈ indexLookup ix q
          ∨ ∃ w ∈ rest, validEntry w = true ∧ q ∈ entryKeys w ∧ x = w.entry.id) := by
  induction rest generalizing ix im with
  | nil => simp [buildAux]
  | cons w ws ih =>
    by_cases hv : validEntry w
    · rw [show buildAux (w :: ws) ix im
          = buildAux ws (addKeys ix (entryKeys w) w.entry.id) (idMapInsert im w.entry.id w)
        from by simp [buildAux, hv], ih, mem_indexLookup_addKeys]
      simp only [List.mem_cons]
      constructor
      · rintro ((hx | ⟨hq, rfl⟩) | ⟨v, hvmem, hvv, hvq, rfl⟩)
        · exact Or.inl hx
        · exact Or.inr ⟨w, Or.inl rfl, hv, hq, rfl⟩
        · exact Or.inr ⟨v, Or.inr hvmem, hvv, hvq, rfl⟩
      · rintro (hx | ⟨v, rfl | hvmem, hvv, hvq, rfl⟩)
        · exact Or.inl (Or.inl hx)
        · exact Or.inl (Or.inr ⟨hvq, rfl⟩)
        · exact Or.inr ⟨v, hvmem, hvv, hvq, rfl⟩
    · rw [show buildAux (w :: ws) ix im = buildAux ws ix im from by simp [buildAux, hv], ih]
      simp only [List.mem_cons]
      constructor
      · rintro (hx | ⟨v, hvmem, hvv, hvq, rfl⟩)
        · exact Or.inl hx
        · exact Or.inr ⟨v, Or.inr hvmem, hvv, hvq, rfl⟩
      · rintro (hx | ⟨v, rfl | hvmem, hvv, hvq, rfl⟩)
        · exact Or.inl hx
        · exact absurd hvv (by simpa using hv)
        · exact Or.inr ⟨v, hvmem, hvv, hvq, rfl⟩

theorem idMapLookup_buildAux_mem (rest : List WordEntry) (ix : Index) (im : IdMap)
    (q : PyVal) (w : WordEntry)
    (h : idMapLookup (buildAux rest ix im).2 q = some w) :
    idMapLookup im q = some w
      ∨ (w ∈ rest ∧ validEntry w = true ∧ w.entry.id = q) := by
  induction rest generalizing ix im with
  | nil => exact Or.inl h
  | cons v vs ih =>
    by_cases hv : validEntry v
    · rw [show buildAux (v :: vs) ix im
          = buildAux vs (addKeys ix (entryKeys v) v.entry.id) (idMapInsert im v.entry.id v)
        from by simp [buildAux, hv]] at h
      rcases ih _ _ h with hl | ⟨hmem, hvv, hq⟩
      · rw [idMapLookup_insert] at hl
        by_cases hq : v.entry.id = q
        · simp [hq] at hl
          subst hl
          exact Or.inr ⟨List.mem_cons_self _ _, hv, hq⟩
        · simp [hq] at hl
          exact Or.inl hl
      · exact Or.inr ⟨List.mem_cons_of_mem _ hmem, hvv, hq⟩
    · rw [show buildAux (v :: vs) ix im = buildAux vs ix im from by simp [buildAux, hv]] at h
      rcases ih _ _ h with hl | ⟨hmem, hvv, hq⟩
      · exact Or.inl hl
      · exact Or.inr ⟨List.mem_cons_of_mem _ hmem, hvv, hq⟩

theorem idMapLookup_buildAux_pres (rest : List WordEntry) (ix : Index) (im : IdMap)
    (q : PyVal) (w : WordEntry)
    (h : idMapLookup im q = some w)
    (hfresh : ∀ v ∈ rest, validEntry v = true → ¬ v.entry.id = q) :
    idMapLookup (buildAux rest ix im).2 q = some w := by
  induction rest generalizing ix im with
  | nil => exact h
  | cons v vs ih =>
    by_cases hv : validEntry v
    · rw [show buildAux (v :: vs) ix im
          = buildAux vs (addKeys ix (entryKeys v) v.entry.id) (idMapInsert im v.entry.id v)
        from by simp [buildAux, hv]]
      refine ih _ _ ?_ fun u hu huv => hfresh u (List.mem_cons_of_mem _ hu) huv
      rw [idMapLookup_insert]
      have : ¬(v.entry.id = q) := hfresh v (List.mem_cons_self _ _) hv
      simp [this, h]
    · rw [show buildAux (v :: vs) ix im = buildAux vs ix im from by simp [buildAux, hv]]
      exact ih _ _ h fun u hu huv => hfresh u (List.mem_cons_of_mem _ hu) huv

theorem buildAux_append (xs ys : List WordEntry) (ix : Index) (im : IdMap) :
    buildAux (xs ++ ys) ix im
      = buildAux ys (buildAux xs ix im).1 (buildAux xs ix im).2 := by
  induction xs generalizing ix im with
  | nil => simp [buildAux]
  | cons w ws ih =>
    by_cases hv : validEntry w <;> simp [buildAux, hv, ih]

/-- C3: for every dictionary (whose entry ids, per the data model, never
collide — expressed by `hu`), every entry with truthy id and form has
its lowercased headword as a key of the resulting SearchIndex whose id
set contains the entry's id, and appears in IdMap under its id; every
entry with a falsy id or form is skipped and is absent from IdMap. -/
theorem build_search_index_spec (words : List WordEntry)
    (hu : (words.filterMap fun w =>
        if validEntry w then some w.entry.id else none).Nodup) :
    (∀ w ∈ words, validEntry w = true →
        w.entry.id ∈ indexLookup (build_search_index words).1 (strLower w.entry.form)
        ∧ idMapLookup (build_search_index words).2 w.entry.id = some w)
    ∧ (∀ w ∈ words, validEntry w = false →
        ∀ k, ¬ idMapLookup (build_search_index words).2 k = some w) := by
  constructor
  · intro w hw hv
    constructor
    · exact (mem_indexLookup_buildAux words [] [] _ _).2
        (Or.inr ⟨w, hw, hv, by simp [entryKeys], rfl⟩)
    · obtain ⟨l1, l2, rfl⟩ := List.append_of_mem hw
      have hsplit : (l1 ++ w :: l2).filterMap
            (fun w => if validEntry w then some w.entry.id else none)
          = l1.filterMap (fun w => if validEntry w then some w.entry.id else none)
            ++ w.entry.id
              :: l2.filterMap (fun w => if validEntry w then some w.entry.id else none) := by
        simp [List.filterMap_append, List.filterMap_cons, hv]
      rw [hsplit] at hu
      have hfresh : ∀ v ∈ l2, validEntry v = true → ¬ v.entry.id = w.entry.id := by
        intro v hv2 hvv heq
        have : w.entry.id ∈ l2.filterMap
            (fun w => if validEntry w then some w.entry.id else none) :=
          List.mem_filterMap.2 ⟨v, hv2, by simp [hvv, heq]⟩
        exact (List.nodup_append.1 hu).2.1.not_mem (by simpa using this) |>.elim
      rw [show build_search_index (l1 ++ w :: l2)
          = buildAux (w :: l2) (buildAux l1 [] []).1 (buildAux l1 [] []).2
        from buildAux_append l1 (w :: l2) [] []]
      rw [show buildAux (w :: l2) (buildAux l1 [] []).1 (buildAux l1 [] []).2
          = buildAux l2 (addKeys (buildAux l1 [] []).1 (entryKeys w) w.entry.id)
              (idMapInsert (buildAux l1 [] []).2 w.entry.id w)
        from by simp [buildAux, hv]]
      refine idMapLookup_buildAux_pres _ _ _ _ _ ?_ hfresh
      rw [idMapLookup_insert]
      simp
  · intro w hw hv k hl
    rcases idMapLookup_buildAux_mem words [] [] k w hl with h | ⟨_, hvv, _⟩
    · exact absurd h (by simp [idMapLookup])
    · rw [hv] at hvv
      exact absurd hvv (by simp)

/-- C3 witness: a two-entry dictionary, one valid entry (id 7, form
"Ab") and one skipped entry (empty form). -/
theorem build_search_index_spec_witness :
    PyVal.int 7 ∈ indexLookup
        (build_search_index
          [⟨⟨PyVal.int 7, "Ab".data⟩, [], [], [], [], []⟩,
            ⟨⟨PyVal.int 8, []⟩, [], [], [], [], []⟩]).1
        (strLower "Ab".data)
    ∧ idMapLookup
        (build_search_index
          [⟨⟨PyVal.int 7, "Ab".data⟩, [], [], [], [], []⟩,
            ⟨⟨PyVal.int 8, []⟩, [], [], [], [], []⟩]).2 (PyVal.int 7)
      = some ⟨⟨PyVal.int 7, "Ab".data⟩, [], [], [], [], []⟩
    ∧ ¬ idMapLookup
        (build_search_index
          [⟨⟨PyVal.int 7, "Ab".data⟩, [], [], [], [], []⟩,
            ⟨⟨PyVal.int 8, []⟩, [], [], [], [], []⟩]).2 (PyVal.int 8)
      = some ⟨⟨PyVal.int 8, []⟩, [], [], [], [], []⟩ := by
  have h := build_search_index_spec
    [⟨⟨PyVal.int 7, "Ab".data⟩, [], [], [], [], []⟩,
      ⟨⟨PyVal.int 8, []⟩, [], [], [], [], []⟩] (by decide)
  have h1 := h.1 ⟨⟨PyVal.int 7, "Ab".data⟩, [], [], [], [], []⟩ (by decide) (by decide)
  exact ⟨h1.1, h1.2,
    h.2 ⟨⟨PyVal.int 8, []⟩, [], [], [], [], []⟩ (by decide) (by decide) (PyVal.int 8)⟩

/-- C9: an entry whose id is the integer 0 (falsy but not `None`) is
excluded from both the SearchIndex and the IdMap exactly as if its id
were missing: the build result is identical to the one with the id set
to `None`, and to the one with the entry dropped altogether; no IdMap
key maps to id 0 and no index set contains it. -/
theorem index_id_zero_excluded (pre post : List WordEntry) (e : WordEntry)
    (h : e.entry.id = PyVal.int 0) :
    build_search_index (pre ++ e :: post)
        = build_search_index (pre ++ setIdNone e :: post)
    ∧ build_search_index (pre ++ e :: post) = build_search_index (pre ++ post)
    ∧ idMapLookup (build_search_index (pre ++ e :: post)).2 (PyVal.int 0) = none
    ∧ ∀ k, PyVal.int 0 ∉ indexLookup (build_search_index (pre ++ e :: post)).1 k := by
  have hv : validEntry e = false := by simp [validEntry, falsy, h]
  have hv' : validEntry (setIdNone e) = false := by simp [validEntry, falsy, setIdNone]
  have hskip : build_search_index (pre ++ e :: post) = build_search_index (pre ++ post) := by
    unfold build_search_index
    rw [buildAux_append, buildAux_append]
    simp [buildAux, hv]
  have hskip' : build_search_index (pre ++ setIdNone e :: post)
      = build_search_index (pre ++ post) := by
    unfold build_search_index
    rw [buildAux_append, buildAux_append]
    simp [buildAux, hv']
  refine ⟨hskip.trans hskip'.symm, hskip, ?_, ?_⟩
  · cases hl : idMapLookup (build_search_index (pre ++ e :: post)).2 (PyVal.int 0) with
    | none => rfl
    | some w =>
      exfalso
      rcases idMapLookup_buildAux_mem _ [] [] _ _ hl with hc | ⟨_, hvv, hid⟩
      · exact absurd hc (by simp [idMapLookup])
      · rw [validEntry, hid] at hvv
        simp [falsy] at hvv
  · intro k hk
    rcases (mem_indexLookup_buildAux _ [] [] _ _).1 hk with hc | ⟨w, _, hvv, _, hid⟩
    · exact absurd hc (by simp [indexLookup])
    · rw [validEntry, ← hid] at hvv
      simp [falsy] at hvv

/-- C9 witness: an entry with id 0 among two others. -/
theorem index_id_zero_excluded_witness :
    (⟨⟨PyVal.int 0, "z".data⟩, [], [], [], [], []⟩ : WordEntry).entry.id = PyVal.int 0
    ∧ build_search_index
        [⟨⟨PyVal.int 1, "a".data⟩, [], [], [], [], []⟩,
          ⟨⟨PyVal.int 0, "z".data⟩, [], [], [], [], []⟩]
      = build_search_index [⟨⟨PyVal.int 1, "a".data⟩, [], [], [], [], []⟩]
    ∧ idMapLookup
        (build_search_index
          [⟨⟨PyVal.int 1, "a".data⟩, [], [], [], [], []⟩,
            ⟨⟨PyVal.int 0, "z".data⟩, [], [], [], [], []⟩]).2 (PyVal.int 0)
      = none := by
  have h := index_id_zero_excluded [⟨⟨PyVal.int 1, "a".data⟩, [], [], [], [], []⟩] []
    ⟨⟨PyVal.int 0, "z".data⟩, [], [], [], [], []⟩ rfl
  exact ⟨rfl, h.2.1, h.2.2.1⟩

/-! ## Query engine, partial mode (claim C4) -/

theorem isPre_iff (n h : Str) : isPre n h = true ↔ ∃ t, h = n ++ t := by
  induction n generalizing h with
  | nil => simp [isPre]
  | cons a as ih =>
    cases h with
    | nil =>
      apply iff_of_false (by simp [isPre])
      rintro ⟨t, ht⟩
      exact absurd ht (by simp)
    | cons b bs =>
      by_cases hab : a = b
      · subst hab
        rw [show isPre (a :: as) (a :: bs) = isPre as bs from by simp [isPre], ih bs]
        constructor
        · rintro ⟨t, rfl⟩
          exact ⟨t, rfl⟩
        · rintro ⟨t, ht⟩
          injection ht with h1 h2
          exact ⟨t, h2⟩
      · apply iff_of_false (by simp [isPre, hab])
        rintro ⟨t, ht⟩
        injection ht with h1 h2
        exact hab h1.symm

theorem hasSub_iff (h n : Str) : hasSub h n = true ↔ ∃ u v, h = u ++ n ++ v := by
  induction h with
  | nil =>
    by_cases hn : n = []
    · subst hn
      apply iff_of_true (by simp [hasSub, isPre])
      exact ⟨[], [], rfl⟩
    · apply iff_of_false
      · cases n with
        | nil => exact absurd rfl hn
        | cons c cs => simp [hasSub, isPre]
      · rintro ⟨u, v, huv⟩
        rw [eq_comm, List.append_eq_nil] at huv
        rw [List.append_eq_nil] at huv
        exact hn huv.1.2
  | cons c t ih =>
    by_cases hp : isPre n (c :: t) = true
    · apply iff_of_true (by rw [hasSub, if_pos hp])
      obtain ⟨s, hs⟩ := (isPre_iff n (c :: t)).1 hp
      exact ⟨[], s, by simpa using hs⟩
    · rw [show hasSub (c :: t) n = hasSub t n from by rw [hasSub, if_neg hp], ih]
      constructor
      · rintro ⟨u, v, rfl⟩
        exact ⟨c :: u, v, rfl⟩
      · rintro ⟨u, v, huv⟩
        cases u with
        | nil =>
          exact absurd ((isPre_iff n (c :: t)).2 ⟨v, by simpa using huv⟩) hp
        | cons x xs =>
          injection huv with _ h2
          exact ⟨xs, v, h2⟩

theorem matchMode_partial_iff (forms : List Str) (keyword : Str) :
    matchMode forms keyword "部分".data = true
      ↔ ∀ t ∈ pySplit keyword, ∃ u v, joinSpace forms = u ++ t ++ v := by
  unfold matchMode
  rw [if_pos rfl, List.all_eq_true]
  exact forall₂_congr fun t _ => hasSub_iff (joinSpace forms) t

/-- C4: in partial mode (部分) the keyword is whitespace-split into
sub-terms and a candidate matches iff every sub-term occurs as a
contiguous substring of the space-joined candidate form list; at the
`run_search` level, in headword-and-translation scope an id is returned
iff some id-map entry with that id matches this way against its
lowercased headword and translation forms, and in full-text scope iff
some index key containing every sub-term carries the id — the keyword
being lowercased before comparison in both scopes. -/
theorem search_partial_mode_spec :
    (∀ forms keyword, matchMode forms keyword "部分".data = true
        ↔ ∀ t ∈ pySplit keyword, ∃ u v, joinSpace forms = u ++ t ++ v)
    ∧ (∀ ix im text wid,
        wid ∈ run_search_ids ix im "部分".data "見出し語・訳語".data text
          ↔ ∃ p ∈ im, p.2.entry.id = wid
              ∧ ∀ t ∈ pySplit (strLower text), ∃ u v,
                  joinSpace (headwordForms p.2) = u ++ t ++ v)
    ∧ (∀ ix im text wid,
        wid ∈ run_search_ids ix im "部分".data "全文".data text
          ↔ ∃ p ∈ ix, wid ∈ p.2
              ∧ ∀ t ∈ pySplit (strLower text), ∃ u v, p.1 = u ++ t ++ v) := by
  refine ⟨matchMode_partial_iff, ?_, ?_⟩
  · intro ix im text wid
    unfold run_search_ids searchHeadwordTranslation
    rw [if_pos rfl]
    simp only [List.mem_filterMap]
    constructor
    · rintro ⟨p, hp, hcond⟩
      cases hm : matchMode (headwordForms p.2) (strLower text) ("部分".data) with
      | false => rw [hm] at hcond; simp at hcond
      | true =>
        rw [hm] at hcond
        simp at hcond
        exact ⟨p, hp, hcond, (matchMode_partial_iff _ _).1 hm⟩
    · rintro ⟨p, hp, hid, hall⟩
      refine ⟨p, hp, ?_⟩
      rw [if_pos ((matchMode_partial_iff _ _).2 hall)]
      exact congrArg some hid
  · intro ix im text wid
    unfold run_search_ids searchFulltext
    rw [if_neg (by decide)]
    simp only [List.mem_flatMap]
    constructor
    · rintro ⟨p, hp, hmem⟩
      cases hm : matchMode [p.1] (strLower text) ("部分".data) with
      | false => rw [hm] at hmem; simp at hmem
      | true =>
        rw [hm] at hmem
        simp at hmem
        have := (matchMode_partial_iff [p.1] (strLower text)).1 hm
        exact ⟨p, hp, hmem, by simpa [joinSpace] using this⟩
    · rintro ⟨p, hp, hmem, hall⟩
      refine ⟨p, hp, ?_⟩
      rw [if_pos ((matchMode_partial_iff [p.1] _).2 (by simpa [joinSpace] using hall))]
      exact hmem

theorem getFirstById_updateFirstById (ws : List WordEntry) (tid : PyVal)
    (f : WordEntry → WordEntry) (w : WordEntry)
    (hw : getFirstById ws tid = some w) (hf : (f w).entry.id = w.entry.id) :
    getFirstById (updateFirstById ws tid f) tid = some (f w) := by
  induction ws with
  | nil => cases hw
  | cons v vs ih =>
    by_cases hid : v.entry.id = tid
    · simp only [getFirstById, if_pos hid] at hw
      injection hw with hw
      subst hw
      have : (f v).entry.id = tid := by rw [hf, hid]
      simp [updateFirstById, hid, getFirstById, this]
    · simp only [getFirstById, if_neg hid] at hw
      simp [updateFirstById, hid, getFirstById, ih hw]

theorem updateFirstById_fix (ws : List WordEntry) (tid : PyVal)
    (f : WordEntry → WordEntry) (w : WordEntry)
    (hw : getFirstById ws tid = some w) (hfix : f w = w) :
    updateFirstById ws tid f = ws := by
  induction ws with
  | nil => rfl
  | cons v vs ih =>
    by_cases hid : v.entry.id = tid
    · simp only [getFirstById, if_pos hid] at hw
      injection hw with hw
      subst hw
      simp [updateFirstById, hid, hfix]
    · simp only [getFirstById, if_neg hid] at hw
      simp [updateFirstById, hid, ih hw]

/-- C5: in a dictionary containing an entry B (first entry carrying
`bId`), applying the reciprocal relations of a source entry A that
declares a 上位語 (hypernym) relation to B appends to B exactly one
下位語 (hyponym) back-relation targeting A, and invoking the application
a second time with identical input changes nothing (idempotence: the
duplicate check suppresses a second copy of the same (kind, target-id)
pair). -/
theorem apply_reciprocal_once (words : List WordEntry) (aId : PyVal) (aForm : Str)
    (bId : PyVal) (bForm : Str) (B : WordEntry)
    (hB : getFirstById words bId = some B)
    (hbid : falsy bId = false)
    (hno : B.relations.any
        (fun r => decide (r.entry.id = aId) && decide (r.title = "下位語".data)) = false) :
    getFirstById
        (apply_reciprocal_relations words aId aForm [⟨"上位語".data, ⟨bId, bForm⟩⟩]) bId
      = some { B with relations := B.relations ++ [⟨"下位語".data, ⟨aId, aForm⟩⟩] }
    ∧ ((B.relations ++ [(⟨"下位語".data, ⟨aId, aForm⟩⟩ : Relation)]).filter
        (fun r => decide (r.entry.id = aId) && decide (r.title = "下位語".data))).length = 1
    ∧ apply_reciprocal_relations
          (apply_reciprocal_relations words aId aForm [⟨"上位語".data, ⟨bId, bForm⟩⟩])
          aId aForm [⟨"上位語".data, ⟨bId, bForm⟩⟩]
        = apply_reciprocal_relations words aId aForm [⟨"上位語".data, ⟨bId, bForm⟩⟩] := by
  have hrt : reciprocal_type "上位語".data = "下位語".data := by decide
  have happ : ∀ ws : List WordEntry,
      apply_reciprocal_relations ws aId aForm [⟨"上位語".data, ⟨bId, bForm⟩⟩]
        = updateFirstById ws bId (fun e => addRecip e "下位語".data aId aForm) := by
    intro ws
    simp [apply_reciprocal_relations, hbid, hrt]
  have hf : ∀ e : WordEntry, (addRecip e "下位語".data aId aForm).entry.id = e.entry.id := by
    intro e
    unfold addRecip
    split <;> rfl
  have hB2 : addRecip B "下位語".data aId aForm
      = { B with relations := B.relations ++ [⟨"下位語".data, ⟨aId, aForm⟩⟩] } := by
    simp only [addRecip, hno]
    rfl
  have h1 : getFirstById
      (apply_reciprocal_relations words aId aForm [⟨"上位語".data, ⟨bId, bForm⟩⟩]) bId
      = some { B with relations := B.relations ++ [⟨"下位語".data, ⟨aId, aForm⟩⟩] } := by
    rw [happ, ← hB2]
    exact getFirstById_updateFirstById words bId _ B hB (hf B)
  refine ⟨h1, ?_, ?_⟩
  · have hnil : B.relations.filter
        (fun r => decide (r.entry.id = aId) && decide (r.title = "下位語".data)) = [] := by
      rw [List.filter_eq_nil_iff]
      intro r hr
      have := List.any_eq_false.1 hno r hr
      simpa using this
    simp [List.filter_append, hnil]
  · rw [happ (apply_reciprocal_relations words aId aForm [⟨"上位語".data, ⟨bId, bForm⟩⟩])]
    refine updateFirstById_fix _ _ _ _ h1 ?_
    have hany : ((B.relations ++ [(⟨"下位語".data, ⟨aId, aForm⟩⟩ : Relation)]).any
        (fun r => decide (r.entry.id = aId) && decide (r.title = "下位語".data))) = true := by
      simp [List.any_append]
    simp only [addRecip]
    rw [if_pos hany]

/-- C5 witness: B is entry 2 with no relations; A (id 1) declares a
上位語 relation to it; the first application appends one 下位語
back-relation and the second application is the identity. -/
theorem apply_reciprocal_once_witness :
    getFirstById
        (apply_reciprocal_relations
          [⟨⟨PyVal.int 2, "b".data⟩, [], [], [], [], []⟩]
          (PyVal.int 1) "a".data [⟨"上位語".data, ⟨PyVal.int 2, "b".data⟩⟩])
        (PyVal.int 2)
      = some ⟨⟨PyVal.int 2, "b".data⟩, [], [], [], [],
          [⟨"下位語".data, ⟨PyVal.int 1, "a".data⟩⟩]⟩
    ∧ apply_reciprocal_relations
          (apply_reciprocal_relations
            [⟨⟨PyVal.int 2, "b".data⟩, [], [], [], [], []⟩]
            (PyVal.int 1) "a".data [⟨"上位語".data, ⟨PyVal.int 2, "b".data⟩⟩])
          (PyVal.int 1) "a".data [⟨"上位語".data, ⟨PyVal.int 2, "b".data⟩⟩]
        = apply_reciprocal_relations
            [⟨⟨PyVal.int 2, "b".data⟩, [], [], [], [], []⟩]
            (PyVal.int 1) "a".data [⟨"上位語".data, ⟨PyVal.int 2, "b".data⟩⟩] := by
  have h := apply_reciprocal_once
    [⟨⟨PyVal.int 2, "b".data⟩, [], [], [], [], []⟩]
    (PyVal.int 1) "a".data (PyVal.int 2) "b".data
    ⟨⟨PyVal.int 2, "b".data⟩, [], [], [], [], []⟩
    (by decide) (by decide) (by decide)
  exact ⟨h.1, h.2.2⟩
